import Mathlib

/-!
Verification of the incremental ingestion and cache-consistency layer of the
gold-digger repository (gold_fetcher.py and news_fetcher.py), as a shallow
embedding in Lean.

Modelling conventions:
* SQLite tables are lists of row structures; an INSERT OR REPLACE on the
  primary key deletes the conflicting rows and appends the new one, an
  INSERT OR IGNORE is dropped when a row with an equal UNIQUE column exists.
* datetimes (ISO-8601 TEXT in the database, compared lexicographically, which
  on a fixed format agrees with chronological order) are modelled as minutes
  encoded as integers; timedelta(minutes=1) is the integer 1.
* REAL price columns are rationals, floats carry no arithmetic here.
* the md5 hexdigest used by _generate_content_hash is modelled by the
  concatenated content string itself: the code only relies on the hash being
  a deterministic function of (title, summary, link).
* the upstream yfinance client is a function parameter; Python exceptions of
  an upstream call are an Except value, a per-article processing failure is
  an Option value.
-/

namespace GoldDigger

/-! ## Definitions: shallow embedding of gold_fetcher.py and news_fetcher.py -/

/-- The two bar series kept by GoldPriceFetcher (intervals "15m" and "30m"). -/
inductive Interval where
  | m15
  | m30
deriving DecidableEq, Repr

/-- One record of a fetched DataFrame: columns Datetime, Open, High, Low,
Close, Volume of the frame returned by fetch_gold_data. -/
structure BarRecord where
  datetime : Int
  open_price : ℚ
  high_price : ℚ
  low_price : ℚ
  close_price : ℚ
  volume : Int
deriving DecidableEq, Repr

/-- One row of a gold_prices_{interval} table. -/
structure BarRow where
  datetime : Int
  open_price : ℚ
  high_price : ℚ
  low_price : ℚ
  close_price : ℚ
  volume : Int
  created_at : Int
deriving DecidableEq, Repr

/-- The price side of the SQLite database: the two bar tables. -/
structure PriceStore where
  gold_prices_15m : List BarRow
  gold_prices_30m : List BarRow
deriving DecidableEq, Repr

/-- Table lookup by interval (the f-string table_name = gold_prices_{interval}). -/
def PriceStore.table (db : PriceStore) : Interval → List BarRow
  | .m15 => db.gold_prices_15m
  | .m30 => db.gold_prices_30m

/-- Replace one interval's table, leaving the other untouched. -/
def PriceStore.setTable (db : PriceStore) : Interval → List BarRow → PriceStore
  | .m15, t => { db with gold_prices_15m := t }
  | .m30, t => { db with gold_prices_30m := t }

/-- The list of datetime keys of a bar table. -/
def dts (table : List BarRow) : List Int :=
  table.map (fun r => r.datetime)

/-- SQL MIN over a column, as a list minimum. -/
def list_min : List Int → Option Int
  | [] => none
  | x :: xs => some (xs.foldl min x)

/-- SQL MAX over a column, as a list maximum. -/
def list_max : List Int → Option Int
  | [] => none
  | x :: xs => some (xs.foldl max x)

/-- Body of get_cached_date_range on one table: SELECT MIN(datetime),
MAX(datetime) FROM table, returning (None, None) on an empty table. -/
def coverage_table (table : List BarRow) : Option (Int × Int) :=
  match list_min (dts table), list_max (dts table) with
  | some a, some b => some (a, b)
  | _, _ => none

/-- GoldPriceFetcher.get_cached_date_range for one interval's table. -/
def get_cached_date_range (db : PriceStore) (interval : Interval) : Option (Int × Int) :=
  coverage_table (db.table interval)

/-- Body of get_missing_date_ranges on one table: on an empty cache the whole
window, otherwise the edge windows with the boundary minute excluded
(timedelta(minutes=1), modelled as the integer 1). -/
def missing_ranges_table (table : List BarRow) (start_date end_date : Int) :
    List (Int × Int) :=
  match coverage_table table with
  | none => [(start_date, end_date)]
  | some (cached_min, cached_max) =>
      (if start_date < cached_min then [(start_date, cached_min - 1)] else []) ++
        (if end_date > cached_max then [(cached_max + 1, end_date)] else [])

/-- GoldPriceFetcher.get_missing_date_ranges (gold_fetcher.py lines 92-110). -/
def get_missing_date_ranges (db : PriceStore) (interval : Interval)
    (start_date end_date : Int) : List (Int × Int) :=
  missing_ranges_table (db.table interval) start_date end_date

/-- The row inserted for one DataFrame record; created_at is the single
current_time taken at the start of save_to_database. -/
def bar_row_of_record (r : BarRecord) (created_at : Int) : BarRow :=
  { datetime := r.datetime, open_price := r.open_price, high_price := r.high_price,
    low_price := r.low_price, close_price := r.close_price, volume := r.volume,
    created_at := created_at }

/-- SQLite INSERT OR REPLACE on the datetime PRIMARY KEY: the conflicting
rows are deleted and the new row is inserted. -/
def insertOrReplace (row : BarRow) (table : List BarRow) : List BarRow :=
  table.filter (fun r => r.datetime ≠ row.datetime) ++ [row]

/-- The executemany of save_to_database over one table: the records are
inserted in order, each with INSERT OR REPLACE. -/
def merge_records (data : List BarRecord) (current_time : Int)
    (table : List BarRow) : List BarRow :=
  data.foldl (fun t r => insertOrReplace (bar_row_of_record r current_time) t) table

/-- GoldPriceFetcher.save_to_database: returns the store unchanged when the
frame is empty, otherwise merges into the interval's table. -/
def save_to_database (data : List BarRecord) (interval : Interval)
    (current_time : Int) (db : PriceStore) : PriceStore :=
  if data.isEmpty then db
  else db.setTable interval (merge_records data current_time (db.table interval))

/-- The while-loop of lines 152-176: retries counts 1, 2, ... while
retries < max_retries (fuel = remaining iterations). Each iteration first
sleeps api_delay * retries, then re-attempts; a non-empty frame returns
immediately, an empty frame or an exception goes to the next iteration.
The returned list is the trace of sleep durations. -/
def retry_loop (attempts : Nat → Except Unit (List BarRecord)) (api_delay : ℚ) :
    Nat → Nat → List ℚ × Option (List BarRecord)
  | _, 0 => ([], none)
  | retries, fuel + 1 =>
      let slp := api_delay * (retries : ℚ)
      match attempts retries with
      | .ok data =>
          if data.isEmpty then
            let rest := retry_loop attempts api_delay (retries + 1) fuel
            (slp :: rest.1, rest.2)
          else ([slp], some data)
      | .error _ =>
          let rest := retry_loop attempts api_delay (retries + 1) fuel
          (slp :: rest.1, rest.2)

/-- GoldPriceFetcher.fetch_gold_data: the rate-limit sleep of api_delay (when
positive) precedes attempt 0; an empty first frame returns None without
retrying; an exception enters the retry loop; exhausting max_retries returns
None. Returns the sleep trace and the fetched frame. -/
def fetch_gold_data (attempts : Nat → Except Unit (List BarRecord))
    (api_delay : ℚ) (max_retries : Nat) : List ℚ × Option (List BarRecord) :=
  let rate := if 0 < api_delay then [api_delay] else []
  match attempts 0 with
  | .ok data => if data.isEmpty then (rate, none) else (rate, some data)
  | .error _ =>
      let rest := retry_loop attempts api_delay 1 max_retries
      (rate ++ rest.1, rest.2)

/-- An upstream client serving a fixed bar series: for a requested window it
returns exactly the bars of the series inside that window, the same on every
call (the deterministic reading of yfinance over unchanging history). -/
def series_fetcher (series : Interval → List BarRecord) :
    Interval → Int × Int → Option (List BarRecord) :=
  fun interval r =>
    some ((series interval).filter
      (fun x => decide (r.1 ≤ x.datetime ∧ x.datetime ≤ r.2)))

/-- The per-interval fetch loop of lines 313-316: for each missing range the
upstream is called; when it yields a frame the frame is saved. The second
component is the trace of upstream calls made. -/
def price_cycle_go (fetcher : Interval → Int × Int → Option (List BarRecord))
    (interval : Interval) (current_time : Int) :
    List (Int × Int) → PriceStore × List (Int × Int) → PriceStore × List (Int × Int)
  | [], acc => acc
  | r :: rest, acc =>
      match fetcher interval r with
      | some data =>
          price_cycle_go fetcher interval current_time rest
            (save_to_database data interval current_time acc.1, acc.2 ++ [r])
      | none => price_cycle_go fetcher interval current_time rest (acc.1, acc.2 ++ [r])

/-- One iteration of the interval loop of fetch_and_cache_gold_prices
(lines 302-316): resolve the missing ranges; when none, continue without
touching the store or the upstream. -/
def fetch_and_cache_interval (fetcher : Interval → Int × Int → Option (List BarRecord))
    (interval : Interval) (start_date end_date current_time : Int)
    (db : PriceStore) : PriceStore × List (Int × Int) :=
  let missing_ranges := get_missing_date_ranges db interval start_date end_date
  if missing_ranges.isEmpty then (db, [])
  else price_cycle_go fetcher interval current_time missing_ranges (db, [])

/-- GoldPriceFetcher.fetch_and_cache_gold_prices over intervals
["15m", "30m"], with the requested window and the wall clock as arguments.
Returns the store and the trace of upstream calls of both intervals. -/
def fetch_and_cache_gold_prices
    (fetcher : Interval → Int × Int → Option (List BarRecord))
    (start_date end_date current_time : Int) (db : PriceStore) :
    PriceStore × List (Interval × Int × Int) :=
  let r15 := fetch_and_cache_interval fetcher .m15 start_date end_date current_time db
  let r30 := fetch_and_cache_interval fetcher .m30 start_date end_date current_time r15.1
  (r30.1, r15.2.map (fun r => (.m15, r)) ++ r30.2.map (fun r => (.m30, r)))

/-- A processed_article dict as built by fetch_news_for_symbol
(news_fetcher.py lines 228-239). -/
structure NewsArticle where
  title : String
  summary : String
  link : String
  publisher : String
  published_date : Int
  symbol : String
  content_hash : String
  sentiment_score : ℚ
  keywords : String
  category : String
deriving DecidableEq, Repr

/-- One row of the gold_news table. -/
structure NewsRow where
  title : String
  summary : String
  link : String
  publisher : String
  published_date : Int
  symbol : String
  content_hash : String
  sentiment_score : ℚ
  keywords : String
  category : String
  created_at : Int
  updated_at : Int
deriving DecidableEq, Repr

/-- GoldNewsFetcher._generate_content_hash (lines 92-95): the md5 hexdigest
of the utf-8 concatenation title + summary + link, modelled by the
concatenation itself; the code relies only on the hash being a deterministic
function of the three fields. -/
def generate_content_hash (title summary link : String) : String :=
  title ++ summary ++ link

/-- The row inserted for an article; created_at and updated_at are the one
current_time taken at the start of save_news_to_database. -/
def news_row_of (a : NewsArticle) (current_time : Int) : NewsRow :=
  { title := a.title, summary := a.summary, link := a.link,
    publisher := a.publisher, published_date := a.published_date,
    symbol := a.symbol, content_hash := a.content_hash,
    sentiment_score := a.sentiment_score, keywords := a.keywords,
    category := a.category, created_at := current_time, updated_at := current_time }

/-- An INSERT OR IGNORE into gold_news conflicts when an existing row shares
the UNIQUE link column or the UNIQUE content_hash column. -/
def news_conflict (table : List NewsRow) (a : NewsArticle) : Bool :=
  table.any (fun r => r.link == a.link || r.content_hash == a.content_hash)

/-- The article loop of save_news_to_database, threading the table and
saved_count. -/
def save_news_go (current_time : Int) :
    List NewsArticle → List NewsRow × Nat → List NewsRow × Nat
  | [], acc => acc
  | a :: rest, acc =>
      if news_conflict acc.1 a then save_news_go current_time rest acc
      else save_news_go current_time rest
        (acc.1 ++ [news_row_of a current_time], acc.2 + 1)

/-- GoldNewsFetcher.save_news_to_database (lines 311-357): per article an
INSERT OR IGNORE; cursor.rowcount > 0, i.e. an actual insert, increments
saved_count. Returns the table and saved_count. -/
def save_news_to_database (news_articles : List NewsArticle) (current_time : Int)
    (table : List NewsRow) : List NewsRow × Nat :=
  if news_articles.isEmpty then (table, 0)
  else save_news_go current_time news_articles (table, 0)

/-- GoldNewsFetcher.fetch_news_for_symbol (lines 160-252): the upstream
ticker.news call either raises (.error, caught by the outer handler of lines
250-252, which returns []) or yields raw articles; an empty result returns
[]; otherwise the first max_articles raw articles are processed one by one,
the per-article body being a function that returns none when it raises (the
handler of lines 243-245 skips that article and continues). -/
def fetch_news_for_symbol {α : Type} (news_source : String → Except String (List α))
    (process : α → Option NewsArticle) (symbol : String) (max_articles : Nat) :
    List NewsArticle :=
  match news_source symbol with
  | .error _ => []
  | .ok news_data =>
      if news_data.isEmpty then []
      else (news_data.take max_articles).filterMap process

/-- One row of the news_fetch_history table (the fetch_date and created_at
TEXT columns are both derived from the one datetime.now() of
_record_fetch_history, modelled as the cycle's clock). -/
structure NewsFetchHistoryRow where
  symbol : String
  articles_count : Nat
  success : Bool
  error_message : Option String
  created_at : Int
deriving DecidableEq, Repr

/-- The state threaded through fetch_and_cache_gold_news: the gold_news
table, the news_fetch_history table, and the per-symbol results dict (as an
association list in iteration order). -/
structure NewsCycleOut where
  gold_news : List NewsRow
  news_fetch_history : List NewsFetchHistoryRow
  results : List (String × Nat)
deriving DecidableEq, Repr

/-- The symbol loop of fetch_and_cache_gold_news (lines 406-426). The except
branch of lines 423-426 (success=False) is unreachable here: an upstream
fetch failure is already caught inside fetch_news_for_symbol (lines 250-252,
returning []), save_news_to_database catches its own sqlite3 errors, and
_record_fetch_history likewise, so every loop iteration completes and
records success=True with no error message. -/
def news_cycle_go {α : Type} (news_source : String → Except String (List α))
    (process : α → Option NewsArticle) (max_articles : Nat) (current_time : Int) :
    List String → NewsCycleOut → NewsCycleOut
  | [], out => out
  | symbol :: rest, out =>
      let news_articles := fetch_news_for_symbol news_source process symbol max_articles
      let saved := save_news_to_database news_articles current_time out.gold_news
      news_cycle_go news_source process max_articles current_time rest
        { gold_news := saved.1,
          news_fetch_history := out.news_fetch_history ++
            [{ symbol := symbol, articles_count := news_articles.length,
               success := true, error_message := none, created_at := current_time }],
          results := out.results ++ [(symbol, saved.2)] }

/-- GoldNewsFetcher.fetch_and_cache_gold_news (lines 398-429), starting from
a given gold_news table and empty history/results for this cycle. -/
def fetch_and_cache_gold_news {α : Type} (news_source : String → Except String (List α))
    (process : α → Option NewsArticle) (symbols : List String) (max_articles : Nat)
    (current_time : Int) (table : List NewsRow) : NewsCycleOut :=
  news_cycle_go news_source process max_articles current_time symbols
    { gold_news := table, news_fetch_history := [], results := [] }

/-- The fetched bars of a fixed series for one window. -/
def series_window (series : List BarRecord) (r : Int × Int) : List BarRecord :=
  series.filter (fun x => decide (r.1 ≤ x.datetime ∧ x.datetime ≤ r.2))

/-- The fetch loop of one interval, acting on that interval's table alone,
with the upstream serving the fixed series. -/
def table_cycle_go (series : List BarRecord) (current_time : Int) :
    List (Int × Int) → List BarRow → List BarRow
  | [], table => table
  | r :: rest, table =>
      table_cycle_go series current_time rest
        (if (series_window series r).isEmpty then table
         else merge_records (series_window series r) current_time table)

/-- One interval's cycle on its table: resolve the missing ranges, then fetch
and merge each. -/
def table_cycle (series : List BarRecord) (current_time start_date end_date : Int)
    (table : List BarRow) : List BarRow :=
  let rs := missing_ranges_table table start_date end_date
  if rs.isEmpty then table else table_cycle_go series current_time rs table

/-- An article conflicts with a table when some row shares its UNIQUE link or
its UNIQUE content_hash. -/
def news_conflictP (a : NewsArticle) (table : List NewsRow) : Prop :=
  ∃ r ∈ table, r.link = a.link ∨ r.content_hash = a.content_hash

def sample_bar_row (t : Int) : BarRow :=
  { datetime := t, open_price := 2000, high_price := 2005, low_price := 1995,
    close_price := 2001, volume := 100, created_at := 0 }

def sample_bar_record (t : Int) : BarRecord :=
  { datetime := t, open_price := 2000, high_price := 2005, low_price := 1995,
    close_price := 2001, volume := 100 }

def sample_article (ttl smry lnk : String) (sym : String) : NewsArticle :=
  { title := ttl, summary := smry, link := lnk, publisher := "pub",
    published_date := 0, symbol := sym,
    content_hash := generate_content_hash ttl smry lnk,
    sentiment_score := 0, keywords := "[]", category := "general" }

/-- A corrected record for the bar at minute 600, with OHLCV values that
differ from sample_bar_row 600. -/
def corrected_bar_record : BarRecord :=
  { datetime := 600, open_price := 1990, high_price := 1991, low_price := 1989,
    close_price := 1990, volume := 7 }

/-- A news upstream for which symbol A raises and symbol B returns one
article. -/
def failing_news_source : String → Except String (List NewsArticle) :=
  fun s => if s = "A" then .error "boom" else .ok [sample_article "t" "s" "l" "B"]

/-- A per-article processor that fails on the raw article 0 and succeeds on
everything else. -/
def sample_process : Nat → Option NewsArticle :=
  fun n => if n = 0 then none else some (sample_article "t" "s" "l" "B")

/-! ## Theorems -/

theorem foldl_min_spec (xs : List Int) (a : Int) :
    xs.foldl min a ≤ a ∧ (∀ x ∈ xs, xs.foldl min a ≤ x) ∧
      (xs.foldl min a = a ∨ xs.foldl min a ∈ xs) := by
  induction xs generalizing a with
  | nil => simp
  | cons y ys ih =>
    rcases ih (min a y) with ⟨h1, h2, h3⟩
    refine ⟨le_trans h1 (min_le_left _ _), ?_, ?_⟩
    · intro x hx
      rcases List.mem_cons.1 hx with rfl | hx
      · exact le_trans h1 (min_le_right _ _)
      · exact h2 x hx
    · rcases h3 with h3 | h3
      · rcases min_choice a y with hc | hc
        · exact Or.inl (by rw [List.foldl_cons, h3, hc])
        · exact Or.inr (by rw [List.foldl_cons, h3, hc]; exact List.mem_cons_self y ys)
      · exact Or.inr (List.mem_cons_of_mem y h3)

theorem foldl_max_spec (xs : List Int) (a : Int) :
    a ≤ xs.foldl max a ∧ (∀ x ∈ xs, x ≤ xs.foldl max a) ∧
      (xs.foldl max a = a ∨ xs.foldl max a ∈ xs) := by
  induction xs generalizing a with
  | nil => simp
  | cons y ys ih =>
    rcases ih (max a y) with ⟨h1, h2, h3⟩
    refine ⟨le_trans (le_max_left _ _) h1, ?_, ?_⟩
    · intro x hx
      rcases List.mem_cons.1 hx with rfl | hx
      · exact le_trans (le_max_right _ _) h1
      · exact h2 x hx
    · rcases h3 with h3 | h3
      · rcases max_choice a y with hc | hc
        · exact Or.inl (by rw [List.foldl_cons, h3, hc])
        · exact Or.inr (by rw [List.foldl_cons, h3, hc]; exact List.mem_cons_self y ys)
      · exact Or.inr (List.mem_cons_of_mem y h3)

theorem list_min_spec {l : List Int} {m : Int} (h : list_min l = some m) :
    m ∈ l ∧ ∀ x ∈ l, m ≤ x := by
  cases l with
  | nil => simp [list_min] at h
  | cons x xs =>
    simp only [list_min, Option.some.injEq] at h
    subst h
    rcases foldl_min_spec xs x with ⟨h1, h2, h3⟩
    constructor
    · rcases h3 with h3 | h3
      · rw [h3]; exact List.mem_cons_self x xs
      · exact List.mem_cons_of_mem x h3
    · intro y hy
      rcases List.mem_cons.1 hy with rfl | hy
      · exact h1
      · exact h2 y hy

theorem list_max_spec {l : List Int} {m : Int} (h : list_max l = some m) :
    m ∈ l ∧ ∀ x ∈ l, x ≤ m := by
  cases l with
  | nil => simp [list_max] at h
  | cons x xs =>
    simp only [list_max, Option.some.injEq] at h
    subst h
    rcases foldl_max_spec xs x with ⟨h1, h2, h3⟩
    constructor
    · rcases h3 with h3 | h3
      · rw [h3]; exact List.mem_cons_self x xs
      · exact List.mem_cons_of_mem x h3
    · intro y hy
      rcases List.mem_cons.1 hy with rfl | hy
      · exact h1
      · exact h2 y hy

theorem list_min_eq_none {l : List Int} : list_min l = none ↔ l = [] := by
  cases l <;> simp [list_min]

theorem list_max_eq_none {l : List Int} : list_max l = none ↔ l = [] := by
  cases l <;> simp [list_max]

theorem setTable_table (db : PriceStore) (iv : Interval) (t : List BarRow) :
    (db.setTable iv t).table iv = t := by
  cases iv <;> rfl

theorem setTable_table_other (db : PriceStore) {iv iv' : Interval}
    (h : iv' ≠ iv) (t : List BarRow) : (db.setTable iv t).table iv' = db.table iv' := by
  cases iv <;> cases iv' <;> first | rfl | exact absurd rfl h

theorem setTable_setTable (db : PriceStore) (iv : Interval) (t t' : List BarRow) :
    (db.setTable iv t).setTable iv t' = db.setTable iv t' := by
  cases iv <;> rfl

theorem setTable_self (db : PriceStore) (iv : Interval) :
    db.setTable iv (db.table iv) = db := by
  cases iv <;> rfl

theorem save_to_database_table (data : List BarRecord) (iv : Interval)
    (now : Int) (db : PriceStore) :
    (save_to_database data iv now db).table iv =
      if data.isEmpty then db.table iv
      else merge_records data now (db.table iv) := by
  unfold save_to_database
  by_cases h : data.isEmpty <;> simp [h, setTable_table]

theorem save_to_database_eq_setTable (data : List BarRecord) (iv : Interval)
    (now : Int) (db : PriceStore) :
    save_to_database data iv now db =
      db.setTable iv (if data.isEmpty then db.table iv
        else merge_records data now (db.table iv)) := by
  unfold save_to_database
  by_cases h : data.isEmpty <;> simp [h, setTable_self]

/-- The store-level fetch loop with a fixed-series upstream only rewrites the
interval's table, exactly as the table-level loop does. -/
theorem price_cycle_go_fst (series : Interval → List BarRecord) (iv : Interval)
    (now : Int) (rs : List (Int × Int)) (db : PriceStore) (calls : List (Int × Int)) :
    (price_cycle_go (series_fetcher series) iv now rs (db, calls)).1 =
      db.setTable iv (table_cycle_go (series iv) now rs (db.table iv)) := by
  induction rs generalizing db calls with
  | nil => simp [price_cycle_go, table_cycle_go, setTable_self]
  | cons r rest ih =>
    show (price_cycle_go (series_fetcher series) iv now rest
      (save_to_database (series_window (series iv) r) iv now db, calls ++ [r])).1 = _
    rw [ih, save_to_database_eq_setTable, setTable_setTable, setTable_table]
    rfl

/-- fetch_and_cache_interval with a fixed-series upstream, as a table rewrite. -/
theorem fetch_and_cache_interval_fst (series : Interval → List BarRecord)
    (iv : Interval) (s e now : Int) (db : PriceStore) :
    (fetch_and_cache_interval (series_fetcher series) iv s e now db).1 =
      db.setTable iv (table_cycle (series iv) now s e (db.table iv)) := by
  unfold fetch_and_cache_interval table_cycle get_missing_date_ranges
  by_cases h : (missing_ranges_table (db.table iv) s e).isEmpty
  · simp [h, setTable_self]
  · simp [h, price_cycle_go_fst]

theorem dts_insertOrReplace (row : BarRow) (table : List BarRow) (t : Int) :
    t ∈ dts (insertOrReplace row table) ↔ t = row.datetime ∨ t ∈ dts table := by
  simp only [dts, insertOrReplace, List.map_append, List.mem_append, List.mem_map,
    List.mem_filter, List.map_cons, List.map_nil, List.mem_singleton]
  constructor
  · rintro (⟨r, ⟨hr, _⟩, rfl⟩ | h)
    · exact Or.inr ⟨r, hr, rfl⟩
    · exact Or.inl h
  · rintro (rfl | ⟨r, hr, rfl⟩)
    · exact Or.inr rfl
    · by_cases hd : r.datetime = row.datetime
      · exact Or.inr hd
      · exact Or.inl ⟨r, ⟨hr, by simpa using hd⟩, rfl⟩

theorem dts_merge_records (data : List BarRecord) (now : Int)
    (table : List BarRow) (t : Int) :
    t ∈ dts (merge_records data now table) ↔
      (∃ x ∈ data, x.datetime = t) ∨ t ∈ dts table := by
  induction data generalizing table with
  | nil => simp [merge_records]
  | cons x rest ih =>
    show t ∈ dts (merge_records rest now (insertOrReplace (bar_row_of_record x now) table)) ↔ _
    rw [ih, dts_insertOrReplace]
    simp only [List.mem_cons, bar_row_of_record]
    constructor
    · rintro (⟨y, hy, rfl⟩ | rfl | h)
      · exact Or.inl ⟨y, Or.inr hy, rfl⟩
      · exact Or.inl ⟨x, Or.inl rfl, rfl⟩
      · exact Or.inr h
    · rintro (⟨y, rfl | hy, rfl⟩ | h)
      · exact Or.inr (Or.inl rfl)
      · exact Or.inl ⟨y, hy, rfl⟩
      · exact Or.inr (Or.inr h)

theorem dts_table_cycle_go (series : List BarRecord) (now : Int)
    (rs : List (Int × Int)) (table : List BarRow) (t : Int) :
    t ∈ dts (table_cycle_go series now rs table) ↔
      (∃ r ∈ rs, ∃ x ∈ series_window series r, x.datetime = t) ∨ t ∈ dts table := by
  induction rs generalizing table with
  | nil => simp [table_cycle_go]
  | cons r rest ih =>
    show t ∈ dts (table_cycle_go series now rest _) ↔ _
    rw [ih]
    by_cases h : (series_window series r).isEmpty
    · rw [List.isEmpty_iff] at h
      simp [h]
    · rw [if_neg h, dts_merge_records]
      simp only [List.mem_cons]
      constructor
      · rintro (h1 | ⟨x, hx, rfl⟩ | h2)
        · rcases h1 with ⟨r', hr', hx⟩
          exact Or.inl ⟨r', Or.inr hr', hx⟩
        · exact Or.inl ⟨r, Or.inl rfl, x, hx, rfl⟩
        · exact Or.inr h2
      · rintro (⟨r', rfl | hr', hx⟩ | h2)
        · exact Or.inr (Or.inl hx)
        · exact Or.inl ⟨r', hr', hx⟩
        · exact Or.inr (Or.inr h2)

theorem dts_table_cycle (series : List BarRecord) (now s e : Int)
    (table : List BarRow) (t : Int) :
    t ∈ dts (table_cycle series now s e table) ↔
      (∃ r ∈ missing_ranges_table table s e, ∃ x ∈ series_window series r, x.datetime = t)
        ∨ t ∈ dts table := by
  unfold table_cycle
  by_cases h : (missing_ranges_table table s e).isEmpty
  · rw [List.isEmpty_iff] at h
    simp [h]
  · rw [if_neg h, dts_table_cycle_go]

theorem coverage_table_eq_none {table : List BarRow} :
    coverage_table table = none ↔ table = [] := by
  unfold coverage_table
  cases table with
  | nil => simp [dts, list_min, list_max]
  | cons r rest =>
    constructor
    · intro h
      exfalso
      revert h
      simp [dts, list_min, list_max]
    · intro h
      simp at h

theorem coverage_table_spec {table : List BarRow} {m M : Int}
    (h : coverage_table table = some (m, M)) :
    m ∈ dts table ∧ M ∈ dts table ∧ ∀ t ∈ dts table, m ≤ t ∧ t ≤ M := by
  unfold coverage_table at h
  rcases hmin : list_min (dts table) with _ | a
  · rw [hmin] at h
    simp at h
  rcases hmax : list_max (dts table) with _ | b
  · rw [hmin, hmax] at h
    simp at h
  rw [hmin, hmax] at h
  simp only [Option.some.injEq, Prod.mk.injEq] at h
  obtain ⟨rfl, rfl⟩ := h
  obtain ⟨hm1, hm2⟩ := list_min_spec hmin
  obtain ⟨hM1, hM2⟩ := list_max_spec hmax
  exact ⟨hm1, hM1, fun t ht => ⟨hm2 t ht, hM2 t ht⟩⟩

theorem coverage_table_of_bounds {table : List BarRow} {m M : Int}
    (hm : m ∈ dts table) (hM : M ∈ dts table)
    (hb : ∀ t ∈ dts table, m ≤ t ∧ t ≤ M) :
    coverage_table table = some (m, M) := by
  rcases hmin : list_min (dts table) with _ | a
  · rw [list_min_eq_none] at hmin
    rw [hmin] at hm
    simp at hm
  rcases hmax : list_max (dts table) with _ | b
  · rw [list_max_eq_none] at hmax
    rw [hmax] at hM
    simp at hM
  obtain ⟨ha1, ha2⟩ := list_min_spec hmin
  obtain ⟨hc1, hc2⟩ := list_max_spec hmax
  have hma : a = m := le_antisymm (ha2 m hm) (hb a ha1).1
  have hMb : b = M := le_antisymm (hb b hc1).2 (hc2 M hM)
  unfold coverage_table
  rw [hmin, hmax, hma, hMb]

theorem mem_missing_ranges {table : List BarRow} {s e : Int} {r : Int × Int} :
    r ∈ missing_ranges_table table s e ↔
      (coverage_table table = none ∧ r = (s, e)) ∨
        (∃ m M, coverage_table table = some (m, M) ∧
          ((s < m ∧ r = (s, m - 1)) ∨ (M < e ∧ r = (M + 1, e)))) := by
  unfold missing_ranges_table
  rcases hc : coverage_table table with _ | ⟨m, M⟩
  · simp
  · constructor
    · intro h
      rcases List.mem_append.1 h with h' | h'
      · refine Or.inr ⟨m, M, rfl, Or.inl ?_⟩
        by_cases h1 : s < m
        · rw [if_pos h1] at h'
          exact ⟨h1, List.mem_singleton.1 h'⟩
        · rw [if_neg h1] at h'
          simp at h'
      · refine Or.inr ⟨m, M, rfl, Or.inr ?_⟩
        by_cases h2 : e > M
        · rw [if_pos h2] at h'
          exact ⟨h2, List.mem_singleton.1 h'⟩
        · rw [if_neg h2] at h'
          simp at h'
    · rintro (⟨hnone, _⟩ | ⟨m', M', hsome, hcase⟩)
      · exact absurd hnone (by simp)
      · obtain ⟨rfl, rfl⟩ : m' = m ∧ M' = M := by
          simpa [and_comm, eq_comm] using hsome
        rcases hcase with ⟨hlt, rfl⟩ | ⟨hlt, rfl⟩
        · exact List.mem_append.2 (Or.inl (by rw [if_pos hlt]; exact List.mem_singleton.2 rfl))
        · exact List.mem_append.2 (Or.inr (by rw [if_pos hlt]; exact List.mem_singleton.2 rfl))

theorem series_window_eq_nil {series : List BarRecord} {r : Int × Int} :
    series_window series r = [] ↔
      ∀ x ∈ series, ¬(r.1 ≤ x.datetime ∧ x.datetime ≤ r.2) := by
  unfold series_window
  rw [List.filter_eq_nil_iff]
  simp

theorem mem_series_window {series : List BarRecord} {r : Int × Int} {x : BarRecord} :
    x ∈ series_window series r ↔ x ∈ series ∧ r.1 ≤ x.datetime ∧ x.datetime ≤ r.2 := by
  unfold series_window
  simp [List.mem_filter]

theorem dts_eq_nil {table : List BarRow} : dts table = [] ↔ table = [] := by
  unfold dts
  simp

/-- After one cycle of a fixed series over a window, every range the Gap
Resolver still reports for that window contains no bar of the series: the
edges of the enlarged coverage are tight against the series. -/
theorem table_cycle_fetch_empty (S : List BarRecord) (now1 s e : Int)
    (T : List BarRow) :
    ∀ r ∈ missing_ranges_table (table_cycle S now1 s e T) s e,
      series_window S r = [] := by
  intro r hr
  rcases mem_missing_ranges.1 hr with ⟨hnone, rfl⟩ | ⟨m1, M1, hsome, hcase⟩
  · -- the table is still empty after the cycle: the start table was empty
    -- and the series has no bar in the window
    have hT1 : table_cycle S now1 s e T = [] := coverage_table_eq_none.1 hnone
    have hT : T = [] := by
      cases hT' : T with
      | nil => rfl
      | cons y rest =>
        exfalso
        have : y.datetime ∈ dts (table_cycle S now1 s e T) := by
          rw [dts_table_cycle]
          exact Or.inr (by rw [hT']; exact List.mem_map.2 ⟨y, List.mem_cons_self _ _, rfl⟩)
        rw [hT1] at this
        simp [dts] at this
    rw [series_window_eq_nil]
    rintro x hx ⟨hx1, hx2⟩
    have hmem : x.datetime ∈ dts (table_cycle S now1 s e T) := by
      rw [dts_table_cycle]
      refine Or.inl ⟨(s, e), ?_, x, mem_series_window.2 ⟨hx, hx1, hx2⟩, rfl⟩
      rw [mem_missing_ranges]
      exact Or.inl ⟨by rw [hT, coverage_table_eq_none], rfl⟩
    rw [hT1] at hmem
    simp [dts] at hmem
  · obtain ⟨hm1mem, hM1mem, hbounds⟩ := coverage_table_spec hsome
    rcases hcase with ⟨hlt, rfl⟩ | ⟨hlt, rfl⟩
    · -- lower edge (s, m1 - 1): nothing of the series lies strictly below
      -- the new cached minimum inside the request
      rw [series_window_eq_nil]
      rintro x hx ⟨hx1, hx2⟩
      simp only at hx1 hx2
      have hxin : x.datetime ∈ dts (table_cycle S now1 s e T) := by
        rw [dts_table_cycle]
        rcases hcov : coverage_table T with _ | ⟨m, M⟩
        · -- empty start table: the first cycle fetched the whole window
          have hm1e : m1 ≤ e := by
            rcases (dts_table_cycle S now1 s e T m1).1 hm1mem with ⟨r', hr', y, hy, hydt⟩ | hmT
            · rcases mem_missing_ranges.1 hr' with ⟨_, rfl⟩ | ⟨m', M', hsome', _⟩
              · have := mem_series_window.1 hy
                omega
              · rw [hcov] at hsome'
                exact absurd hsome' (by simp)
            · rw [coverage_table_eq_none.1 hcov] at hmT
              simp [dts] at hmT
          refine Or.inl ⟨(s, e), ?_, x, mem_series_window.2 ⟨hx, hx1, by omega⟩, rfl⟩
          rw [mem_missing_ranges]
          exact Or.inl ⟨hcov, rfl⟩
        · obtain ⟨hmmem, _, _⟩ := coverage_table_spec hcov
          by_cases hxm : x.datetime < m
          · -- the first cycle fetched (s, m - 1) and x is in it
            refine Or.inl ⟨(s, m - 1), ?_, x, mem_series_window.2 ⟨hx, hx1, by omega⟩, rfl⟩
            rw [mem_missing_ranges]
            exact Or.inr ⟨m, M, hcov, Or.inl ⟨by omega, rfl⟩⟩
          · -- x would sit at or above the old minimum, already covered
            exfalso
            have hmin1 : m1 ≤ m := by
              have : m ∈ dts (table_cycle S now1 s e T) := by
                rw [dts_table_cycle]
                exact Or.inr hmmem
              exact (hbounds m this).1
            omega
      have := (hbounds _ hxin).1
      omega
    · -- upper edge (M1 + 1, e): symmetric
      rw [series_window_eq_nil]
      rintro x hx ⟨hx1, hx2⟩
      simp only at hx1 hx2
      have hxin : x.datetime ∈ dts (table_cycle S now1 s e T) := by
        rw [dts_table_cycle]
        rcases hcov : coverage_table T with _ | ⟨m, M⟩
        · have hM1s : s ≤ M1 := by
            rcases (dts_table_cycle S now1 s e T M1).1 hM1mem with ⟨r', hr', y, hy, hydt⟩ | hmT
            · rcases mem_missing_ranges.1 hr' with ⟨_, rfl⟩ | ⟨m', M', hsome', _⟩
              · have := mem_series_window.1 hy
                omega
              · rw [hcov] at hsome'
                exact absurd hsome' (by simp)
            · rw [coverage_table_eq_none.1 hcov] at hmT
              simp [dts] at hmT
          refine Or.inl ⟨(s, e), ?_, x, mem_series_window.2 ⟨hx, by omega, hx2⟩, rfl⟩
          rw [mem_missing_ranges]
          exact Or.inl ⟨hcov, rfl⟩
        · obtain ⟨_, hMmem, _⟩ := coverage_table_spec hcov
          by_cases hxM : M < x.datetime
          · refine Or.inl ⟨(M + 1, e), ?_, x, mem_series_window.2 ⟨hx, by omega, hx2⟩, rfl⟩
            rw [mem_missing_ranges]
            exact Or.inr ⟨m, M, hcov, Or.inr ⟨by omega, rfl⟩⟩
          · exfalso
            have hmax1 : M ≤ M1 := by
              have : M ∈ dts (table_cycle S now1 s e T) := by
                rw [dts_table_cycle]
                exact Or.inr hMmem
              exact (hbounds M this).2
            omega
      have := (hbounds _ hxin).2
      omega

theorem table_cycle_go_id (S : List BarRecord) (now : Int) (rs : List (Int × Int))
    (T : List BarRow) (h : ∀ r ∈ rs, series_window S r = []) :
    table_cycle_go S now rs T = T := by
  induction rs generalizing T with
  | nil => rfl
  | cons r rest ih =>
    show table_cycle_go S now rest _ = T
    rw [if_pos (by rw [List.isEmpty_iff]; exact h r (List.mem_cons_self _ _))]
    exact ih T (fun r' hr' => h r' (List.mem_cons_of_mem _ hr'))

/-- Running the same window cycle a second time over an unchanged fixed
series leaves the table exactly as after the first run. -/
theorem table_cycle_idem (S : List BarRecord) (now1 now2 s e : Int)
    (T : List BarRow) :
    table_cycle S now2 s e (table_cycle S now1 s e T) = table_cycle S now1 s e T := by
  conv_lhs => rw [table_cycle]
  by_cases h : (missing_ranges_table (table_cycle S now1 s e T) s e).isEmpty
  · simp [h]
  · rw [if_neg h]
    exact table_cycle_go_id _ _ _ _ (table_cycle_fetch_empty S now1 s e T)

/-- The full two-interval price cycle with a fixed-series upstream rewrites
the two tables independently. -/
theorem fetch_and_cache_gold_prices_fst (series : Interval → List BarRecord)
    (s e now : Int) (db : PriceStore) :
    (fetch_and_cache_gold_prices (series_fetcher series) s e now db).1 =
      { gold_prices_15m := table_cycle (series .m15) now s e db.gold_prices_15m,
        gold_prices_30m := table_cycle (series .m30) now s e db.gold_prices_30m } := by
  cases db with
  | mk t15 t30 =>
    show (fetch_and_cache_interval (series_fetcher series) .m30 s e now
      (fetch_and_cache_interval (series_fetcher series) .m15 s e now ⟨t15, t30⟩).1).1 = _
    rw [fetch_and_cache_interval_fst, fetch_and_cache_interval_fst]
    rfl

theorem news_conflict_iff {table : List NewsRow} {a : NewsArticle} :
    news_conflict table a = true ↔ news_conflictP a table := by
  unfold news_conflict news_conflictP
  simp [List.any_eq_true]

theorem save_news_go_append (now : Int) (as : List NewsArticle)
    (T : List NewsRow) (c : Nat) :
    ∃ tail, (save_news_go now as (T, c)).1 = T ++ tail := by
  induction as generalizing T c with
  | nil => exact ⟨[], by simp [save_news_go]⟩
  | cons a rest ih =>
    simp only [save_news_go]
    by_cases h : news_conflict T a
    · rw [if_pos h]
      exact ih T c
    · rw [if_neg h]
      obtain ⟨tail, htail⟩ := ih (T ++ [news_row_of a now]) (c + 1)
      exact ⟨[news_row_of a now] ++ tail, by rw [htail, List.append_assoc]⟩

theorem save_news_go_mem_mono {r : NewsRow} {T : List NewsRow} (now : Int)
    (as : List NewsArticle) (c : Nat) (h : r ∈ T) :
    r ∈ (save_news_go now as (T, c)).1 := by
  obtain ⟨tail, htail⟩ := save_news_go_append now as T c
  rw [htail]
  exact List.mem_append.2 (Or.inl h)

theorem news_conflictP_save_mono {a : NewsArticle} {T : List NewsRow} (now : Int)
    (as : List NewsArticle) (c : Nat) (h : news_conflictP a T) :
    news_conflictP a (save_news_go now as (T, c)).1 := by
  obtain ⟨r, hr, hor⟩ := h
  exact ⟨r, save_news_go_mem_mono now as c hr, hor⟩

theorem save_news_go_all_conflict (now : Int) (as : List NewsArticle)
    (T : List NewsRow) (c : Nat) :
    ∀ a ∈ as, news_conflictP a (save_news_go now as (T, c)).1 := by
  induction as generalizing T c with
  | nil => simp
  | cons b rest ih =>
    intro a ha
    simp only [save_news_go]
    rcases List.mem_cons.1 ha with rfl | ha
    · by_cases h : news_conflict T a
      · rw [if_pos h]
        exact news_conflictP_save_mono now rest c (news_conflict_iff.1 h)
      · rw [if_neg h]
        refine news_conflictP_save_mono now rest (c + 1) ?_
        exact ⟨news_row_of a now, List.mem_append.2 (Or.inr (List.mem_singleton.2 rfl)),
          Or.inl rfl⟩
    · by_cases h : news_conflict T b
      · rw [if_pos h]
        exact ih T c a ha
      · rw [if_neg h]
        exact ih _ _ a ha

theorem save_news_go_id (now : Int) (as : List NewsArticle) (T : List NewsRow)
    (c : Nat) (h : ∀ a ∈ as, news_conflictP a T) :
    save_news_go now as (T, c) = (T, c) := by
  induction as with
  | nil => rfl
  | cons a rest ih =>
    simp only [save_news_go]
    rw [if_pos (news_conflict_iff.2 (h a (List.mem_cons_self _ _)))]
    exact ih (fun a' ha' => h a' (List.mem_cons_of_mem _ ha'))

theorem save_news_to_database_fst_id (now : Int) (as : List NewsArticle)
    (T : List NewsRow) (h : ∀ a ∈ as, news_conflictP a T) :
    save_news_to_database as now T = (T, 0) := by
  unfold save_news_to_database
  by_cases he : as.isEmpty
  · rw [if_pos he]
  · rw [if_neg he]
    exact save_news_go_id now as T 0 h

theorem save_news_to_database_mem_mono {r : NewsRow} {T : List NewsRow}
    (now : Int) (as : List NewsArticle) (h : r ∈ T) :
    r ∈ (save_news_to_database as now T).1 := by
  unfold save_news_to_database
  by_cases he : as.isEmpty
  · rw [if_pos he]
    exact h
  · rw [if_neg he]
    exact save_news_go_mem_mono now as 0 h

theorem save_news_to_database_all_conflict (now : Int) (as : List NewsArticle)
    (T : List NewsRow) : ∀ a ∈ as, news_conflictP a (save_news_to_database as now T).1 := by
  intro a ha
  unfold save_news_to_database
  rw [if_neg (by rw [List.isEmpty_iff]; rintro rfl; simp at ha)]
  exact save_news_go_all_conflict now as T 0 a ha

theorem news_cycle_go_mem_mono {α : Type} {r : NewsRow}
    (ns : String → Except String (List α)) (proc : α → Option NewsArticle)
    (maxA : Nat) (now : Int) (syms : List String) (out : NewsCycleOut)
    (h : r ∈ out.gold_news) :
    r ∈ (news_cycle_go ns proc maxA now syms out).gold_news := by
  induction syms generalizing out with
  | nil => exact h
  | cons sym rest ih =>
    exact ih _ (save_news_to_database_mem_mono now _ h)

theorem news_cycle_go_all_conflict {α : Type}
    (ns : String → Except String (List α)) (proc : α → Option NewsArticle)
    (maxA : Nat) (now : Int) (syms : List String) (out : NewsCycleOut) :
    ∀ sym ∈ syms, ∀ a ∈ fetch_news_for_symbol ns proc sym maxA,
      news_conflictP a (news_cycle_go ns proc maxA now syms out).gold_news := by
  induction syms generalizing out with
  | nil => simp
  | cons sym' rest ih =>
    intro sym hsym a ha
    rcases List.mem_cons.1 hsym with rfl | hsym
    · obtain ⟨r, hr, hor⟩ :=
        save_news_to_database_all_conflict now (fetch_news_for_symbol ns proc sym maxA)
          out.gold_news a ha
      exact ⟨r, news_cycle_go_mem_mono ns proc maxA now rest _ hr, hor⟩
    · exact ih _ sym hsym a ha

theorem news_cycle_go_gold_news_id {α : Type}
    (ns : String → Except String (List α)) (proc : α → Option NewsArticle)
    (maxA : Nat) (now : Int) (syms : List String) (out : NewsCycleOut)
    (h : ∀ sym ∈ syms, ∀ a ∈ fetch_news_for_symbol ns proc sym maxA,
      news_conflictP a out.gold_news) :
    (news_cycle_go ns proc maxA now syms out).gold_news = out.gold_news := by
  induction syms generalizing out with
  | nil => rfl
  | cons sym rest ih =>
    show (news_cycle_go ns proc maxA now rest _).gold_news = _
    rw [save_news_to_database_fst_id now _ _ (h sym (List.mem_cons_self _ _))]
    exact ih _ (fun sym' hsym' => h sym' (List.mem_cons_of_mem _ hsym'))

theorem retry_loop_all_err (attempts : Nat → Except Unit (List BarRecord))
    (d : ℚ) (h : ∀ k, attempts k = .error ()) (fuel k : Nat) :
    retry_loop attempts d k fuel =
      ((List.range fuel).map (fun i => d * ((k + i : Nat) : ℚ)), none) := by
  induction fuel generalizing k with
  | zero => rfl
  | succ fuel ih =>
    show (match attempts k with
      | .ok data => _
      | .error _ => _) = _
    rw [h k, ih (k + 1), List.range_succ_eq_map, List.map_cons, List.map_map]
    refine congrArg (fun l => (_ :: l, (none : Option (List BarRecord)))) ?_
    refine List.map_congr_left ?_
    intro i _
    show d * ((k + 1 + i : Nat) : ℚ) = d * ((k + (i + 1) : Nat) : ℚ)
    congr 1
    norm_cast
    omega

theorem news_conflict_eq_false {T : List NewsRow} {a : NewsArticle} :
    news_conflict T a = false ↔
      ∀ r ∈ T, r.link ≠ a.link ∧ r.content_hash ≠ a.content_hash := by
  unfold news_conflict
  rw [List.any_eq_false]
  constructor
  · intro h r hr
    have := h r hr
    simp at this
    exact this
  · intro h r hr
    simp [h r hr]

theorem save_news_single (a : NewsArticle) (t : Int) (T : List NewsRow)
    (h : news_conflict T a = false) :
    save_news_to_database [a] t T = (T ++ [news_row_of a t], 1) := by
  unfold save_news_to_database
  rw [if_neg (by simp)]
  simp only [save_news_go]
  rw [if_neg (by simp [h])]

theorem save_news_single_ignored (a : NewsArticle) (t : Int) (T : List NewsRow)
    (h : news_conflict T a = true) :
    save_news_to_database [a] t T = (T, 0) := by
  unfold save_news_to_database
  rw [if_neg (by simp)]
  simp only [save_news_go]
  rw [if_pos h]

/-- C1, counterexample. The claim takes ε to be one bar interval of the
series, 15 minutes for the 15m series. The code subtracts and adds
timedelta(minutes=1) for both series, so for the 15m store covering
10:00-11:00 (minutes 600-660) and request 09:30-11:30 (570-690) the resolver
returns [(570, 599), (661, 690)] = [(09:30, 09:59), (11:01, 11:30)], not the
[(570, 585), (675, 690)] = [(09:30, 09:45), (11:15, 11:30)] that ε = 15
minutes would give. -/
theorem C1_counterexample :
    get_missing_date_ranges
        { gold_prices_15m := [sample_bar_row 600, sample_bar_row 660],
          gold_prices_30m := [] } .m15 570 690 = [(570, 599), (661, 690)] ∧
      ([((570 : Int), (599 : Int)), (661, 690)] : List (Int × Int)) ≠
        [(570, 585), (675, 690)] := by
  constructor
  · rfl
  · decide

/-- C1, amended: for a requested closed window with requested_start ≤
requested_end and a non-empty store whose coverage is (cached_min,
cached_max), get_missing_date_ranges returns exactly (requested_start,
cached_min - ε) if requested_start < cached_min followed by (cached_max + ε,
requested_end) if requested_end > cached_max, where ε is ONE MINUTE
(timedelta(minutes=1)) for both the 15m and the 30m series, not one bar
interval; the concrete example of the claim holds as stated. -/
theorem C1_gap_resolver_edges (db : PriceStore) (iv : Interval)
    (s e m M : Int) (hse : s ≤ e)
    (hm : m ∈ dts (db.table iv)) (hM : M ∈ dts (db.table iv))
    (hb : ∀ t ∈ dts (db.table iv), m ≤ t ∧ t ≤ M) :
    get_missing_date_ranges db iv s e =
      (if s < m then [(s, m - 1)] else []) ++
        (if e > M then [(M + 1, e)] else []) := by
  unfold get_missing_date_ranges missing_ranges_table
  rw [coverage_table_of_bounds hm hM hb]

/-- C1, witness: the amended theorem applied to the 15m store covering
minutes 600-660 with request 570-690. -/
theorem C1_witness :
    get_missing_date_ranges
        { gold_prices_15m := [sample_bar_row 600, sample_bar_row 660],
          gold_prices_30m := [] } .m15 570 690 =
      (if (570 : Int) < 600 then [((570 : Int), (600 : Int) - 1)] else []) ++
        (if (690 : Int) > 660 then [((660 : Int) + 1, (690 : Int))] else []) :=
  C1_gap_resolver_edges _ .m15 570 690 600 660 (by decide) (by decide)
    (by decide) (by decide)

/-- C4: re-ingesting through save_to_database a bar for an already-cached
timestamp with different OHLC values leaves exactly one row for that
timestamp, carrying the later fetch's open, high, low, close and volume and
the new created_at (INSERT OR REPLACE, last-fetch-wins); no duplicate row is
created. -/
theorem C4_replace_semantics (db : PriceStore) (iv : Interval)
    (oldr : BarRow) (rec : BarRecord) (now : Int)
    (hcached : (db.table iv).filter (fun r => r.datetime == rec.datetime) = [oldr])
    (hdiff : (oldr.open_price, oldr.high_price, oldr.low_price, oldr.close_price,
        oldr.volume) ≠
      (rec.open_price, rec.high_price, rec.low_price, rec.close_price, rec.volume)) :
    ((save_to_database [rec] iv now db).table iv).filter
        (fun r => r.datetime == rec.datetime) = [bar_row_of_record rec now] := by
  rw [save_to_database_table]
  rw [if_neg (by simp)]
  show (insertOrReplace (bar_row_of_record rec now) (db.table iv)).filter _ = _
  unfold insertOrReplace
  rw [List.filter_append, List.filter_filter]
  have h1 : ∀ r : BarRow,
      ((r.datetime == rec.datetime) && decide (r.datetime ≠ (bar_row_of_record rec now).datetime)) = false := by
    intro r
    by_cases h : r.datetime = rec.datetime <;> simp [h, bar_row_of_record]
  rw [List.filter_congr (fun r _ => h1 r), List.filter_false]
  simp [bar_row_of_record]

/-- C4, witness: replacing the bar at minute 600 with a record carrying new
OHLC values. -/
theorem C4_witness :
    ((save_to_database [corrected_bar_record] .m15 5
          { gold_prices_15m := [sample_bar_row 600], gold_prices_30m := [] }).table
        .m15).filter (fun r => r.datetime == corrected_bar_record.datetime) =
      [bar_row_of_record corrected_bar_record 5] :=
  C4_replace_semantics _ .m15 (sample_bar_row 600) corrected_bar_record 5
    (by decide) (by decide)

/-- C5: for an empty store (no cached bars for the interval) and any window
with requested_start ≤ requested_end, get_missing_date_ranges returns
exactly [(requested_start, requested_end)], endpoints unchanged. -/
theorem C5_empty_store (db : PriceStore) (iv : Interval) (s e : Int)
    (hempty : db.table iv = []) (hse : s ≤ e) :
    get_missing_date_ranges db iv s e = [(s, e)] := by
  unfold get_missing_date_ranges missing_ranges_table
  rw [show coverage_table (db.table iv) = none by
    rw [hempty]; exact coverage_table_eq_none.2 rfl]

/-- C5, witness: the empty store with request window (570, 690). -/
theorem C5_witness :
    get_missing_date_ranges { gold_prices_15m := [], gold_prices_30m := [] }
        .m15 570 690 = [(570, 690)] :=
  C5_empty_store _ .m15 570 690 rfl (by decide)

/-- C7: when the initial upstream bar fetch raises a transient error (and
every retry attempt keeps failing), fetch_gold_data performs exactly
max_retries retry attempts, sleeping base_delay * k before retry attempt k
(linear backoff, preceded by the one rate-limit sleep of base_delay when it
is positive), and after exhausting the retries returns a failure result
(None) to the caller instead of raising. -/
theorem C7_linear_backoff (attempts : Nat → Except Unit (List BarRecord))
    (d : ℚ) (n : Nat) (hfail : ∀ k, attempts k = .error ()) :
    fetch_gold_data attempts d n =
      ((if 0 < d then [d] else []) ++
        (List.range n).map (fun i => d * ((i + 1 : Nat) : ℚ)), none) := by
  have hmaps : (List.range n).map (fun i => d * ((1 + i : Nat) : ℚ)) =
      (List.range n).map (fun i => d * ((i + 1 : Nat) : ℚ)) := by
    refine List.map_congr_left ?_
    intro i _
    congr 1
    norm_cast
    omega
  unfold fetch_gold_data
  rw [hfail 0]
  show ((if 0 < d then [d] else []) ++ (retry_loop attempts d 1 n).1,
    (retry_loop attempts d 1 n).2) = _
  rw [retry_loop_all_err attempts d hfail n 1]
  show ((if 0 < d then [d] else []) ++
    (List.range n).map (fun i => d * ((1 + i : Nat) : ℚ)), none) = _
  rw [hmaps]

/-- C7, witness: base_delay 1, max_retries 3, all attempts failing: one
rate-limit sleep then sleeps 1, 2, 3, and a None result. -/
theorem C7_witness :
    fetch_gold_data (fun _ => .error ()) 1 3 =
      ((if (0 : ℚ) < 1 then [(1 : ℚ)] else []) ++
        (List.range 3).map (fun i => (1 : ℚ) * ((i + 1 : Nat) : ℚ)), none) :=
  C7_linear_backoff (fun _ => .error ()) 1 3 (fun _ => rfl)

/-- C9: when get_missing_date_ranges reports no missing range for an
interval, that interval's cycle makes no upstream call (empty call trace)
and leaves the store untouched, contributing zero new items. -/
theorem C9_covered_noop (fetcher : Interval → Int × Int → Option (List BarRecord))
    (iv : Interval) (s e now : Int) (db : PriceStore)
    (h : get_missing_date_ranges db iv s e = []) :
    fetch_and_cache_interval fetcher iv s e now db = (db, []) := by
  unfold fetch_and_cache_interval
  rw [show get_missing_date_ranges db iv s e = [] from h]
  rfl

/-- C9, witness: a store covering minutes 0-100 with the request window
(10, 50) resolves to no missing range, and the cycle is a no-op. -/
theorem C9_witness :
    fetch_and_cache_interval (fun _ _ => none) .m15 10 50 3
        { gold_prices_15m := [sample_bar_row 0, sample_bar_row 100],
          gold_prices_30m := [] } =
      ({ gold_prices_15m := [sample_bar_row 0, sample_bar_row 100],
          gold_prices_30m := [] }, []) :=
  C9_covered_noop _ .m15 10 50 3 _ (by rfl)

/-- C2: with the upstream returning the same records each time (modelled as a
fixed bar series per interval served window-by-window, and a fixed news feed
per symbol), two consecutive identical fetch-and-cache cycles over one
requested window leave the store exactly as one cycle does: the second cycle
creates no bar row (per-timestamp INSERT OR REPLACE fetches nothing new) and
no article row (per-hash/per-link INSERT OR IGNORE absorbs every candidate). -/
theorem C2_idempotent_cycles {α : Type} (series : Interval → List BarRecord)
    (s e t1 t2 : Int) (db : PriceStore)
    (news_source : String → Except String (List α))
    (process : α → Option NewsArticle) (symbols : List String)
    (max_articles : Nat) (u1 u2 : Int) (table : List NewsRow) :
    (fetch_and_cache_gold_prices (series_fetcher series) s e t2
          (fetch_and_cache_gold_prices (series_fetcher series) s e t1 db).1).1 =
        (fetch_and_cache_gold_prices (series_fetcher series) s e t1 db).1 ∧
      (fetch_and_cache_gold_news news_source process symbols max_articles u2
          (fetch_and_cache_gold_news news_source process symbols max_articles u1
            table).gold_news).gold_news =
        (fetch_and_cache_gold_news news_source process symbols max_articles u1
          table).gold_news := by
  constructor
  · rw [fetch_and_cache_gold_prices_fst series s e t1,
      fetch_and_cache_gold_prices_fst series s e t2]
    show PriceStore.mk _ _ = PriceStore.mk _ _
    rw [show (PriceStore.mk (table_cycle (series .m15) t1 s e db.gold_prices_15m)
        (table_cycle (series .m30) t1 s e db.gold_prices_30m)).gold_prices_15m =
        table_cycle (series .m15) t1 s e db.gold_prices_15m from rfl]
    rw [show (PriceStore.mk (table_cycle (series .m15) t1 s e db.gold_prices_15m)
        (table_cycle (series .m30) t1 s e db.gold_prices_30m)).gold_prices_30m =
        table_cycle (series .m30) t1 s e db.gold_prices_30m from rfl]
    rw [table_cycle_idem, table_cycle_idem]
  · exact news_cycle_go_gold_news_id news_source process max_articles u2 symbols
      _ (fun sym hsym a ha =>
        news_cycle_go_all_conflict news_source process max_articles u1 symbols
          { gold_news := table, news_fetch_history := [], results := [] } sym hsym a ha)

/-- C3: two candidate articles with identical title, summary and link (hence
one shared content hash) and different fetch timestamps: after ingesting
both through save_news_to_database, in either order, exactly one row with
the shared hash persists, keeping the first ingestion's values; the second
insert is absorbed (INSERT OR IGNORE, returned count 0), not an error. -/
theorem C3_dedup_first_write_wins (a1 a2 : NewsArticle) (t1 t2 : Int)
    (T : List NewsRow)
    (ht : a1.title = a2.title) (hs : a1.summary = a2.summary)
    (hl : a1.link = a2.link)
    (h1 : a1.content_hash = generate_content_hash a1.title a1.summary a1.link)
    (h2 : a2.content_hash = generate_content_hash a2.title a2.summary a2.link)
    (htime : t1 ≠ t2)
    (hT : ∀ r ∈ T, r.link ≠ a1.link ∧ r.content_hash ≠ a1.content_hash) :
    (save_news_to_database [a2] t2 (save_news_to_database [a1] t1 T).1 =
          ((save_news_to_database [a1] t1 T).1, 0) ∧
        (save_news_to_database [a1] t1 T).1.filter
            (fun r => r.content_hash == a1.content_hash) = [news_row_of a1 t1]) ∧
      (save_news_to_database [a1] t1 (save_news_to_database [a2] t2 T).1 =
          ((save_news_to_database [a2] t2 T).1, 0) ∧
        (save_news_to_database [a2] t2 T).1.filter
            (fun r => r.content_hash == a2.content_hash) = [news_row_of a2 t2]) := by
  have hhash : a1.content_hash = a2.content_hash := by
    rw [h1, h2, ht, hs, hl]
  have hT2 : ∀ r ∈ T, r.link ≠ a2.link ∧ r.content_hash ≠ a2.content_hash := by
    intro r hr
    rw [← hl, ← hhash]
    exact hT r hr
  have hc1 : news_conflict T a1 = false := news_conflict_eq_false.2 hT
  have hc2 : news_conflict T a2 = false := news_conflict_eq_false.2 hT2
  have hfilter : ∀ a : NewsArticle, (∀ r ∈ T, r.content_hash ≠ a.content_hash) →
      ∀ t : Int, (T ++ [news_row_of a t]).filter
        (fun r => r.content_hash == a.content_hash) = [news_row_of a t] := by
    intro a ha t
    rw [List.filter_append]
    rw [List.filter_eq_nil_iff.2 (by intro r hr; simpa using ha r hr)]
    simp [news_row_of]
  constructor
  · rw [save_news_single a1 t1 T hc1]
    refine ⟨save_news_single_ignored a2 t2 _ ?_, hfilter a1 (fun r hr => (hT r hr).2) t1⟩
    unfold news_conflict
    rw [List.any_append]
    simp [news_row_of, hl]
  · rw [save_news_single a2 t2 T hc2]
    refine ⟨save_news_single_ignored a1 t1 _ ?_, hfilter a2 (fun r hr => (hT2 r hr).2) t2⟩
    unfold news_conflict
    rw [List.any_append]
    simp [news_row_of, hl]

/-- C3, witness: the same article fetched at times 1 and 2, over the empty
table, in both orders. -/
theorem C3_witness :
    (save_news_to_database [sample_article "t" "s" "l" "B"] 2
            (save_news_to_database [sample_article "t" "s" "l" "A"] 1 []).1 =
          ((save_news_to_database [sample_article "t" "s" "l" "A"] 1 []).1, 0) ∧
        (save_news_to_database [sample_article "t" "s" "l" "A"] 1 []).1.filter
            (fun r => r.content_hash == (sample_article "t" "s" "l" "A").content_hash) =
          [news_row_of (sample_article "t" "s" "l" "A") 1]) ∧
      (save_news_to_database [sample_article "t" "s" "l" "A"] 1
            (save_news_to_database [sample_article "t" "s" "l" "B"] 2 []).1 =
          ((save_news_to_database [sample_article "t" "s" "l" "B"] 2 []).1, 0) ∧
        (save_news_to_database [sample_article "t" "s" "l" "B"] 2 []).1.filter
            (fun r => r.content_hash == (sample_article "t" "s" "l" "B").content_hash) =
          [news_row_of (sample_article "t" "s" "l" "B") 2]) :=
  C3_dedup_first_write_wins (sample_article "t" "s" "l" "A")
    (sample_article "t" "s" "l" "B") 1 2 [] rfl rfl rfl rfl rfl
    (by decide) (by intro r hr; simp at hr)

/-- C6, counterexample. In the code an upstream news fetch failure is caught
inside fetch_news_for_symbol (news_fetcher.py lines 250-252), which returns
[], so the orchestrator records a fetch-history row with success=True and no
error message for the failing symbol; the claimed succeeded=false row is
never written for an upstream failure. Concretely, with symbol A failing and
symbol B succeeding, B's article is stored and A contributes zero records,
but no history row has success=false. -/
theorem C6_counterexample :
    (fetch_and_cache_gold_news failing_news_source some ["A", "B"] 50 7 []).gold_news =
        [news_row_of (sample_article "t" "s" "l" "B") 7] ∧
      (fetch_and_cache_gold_news failing_news_source some ["A", "B"] 50 7 []).results =
        [("A", 0), ("B", 1)] ∧
      (fetch_and_cache_gold_news failing_news_source some ["A", "B"] 50 7 []).news_fetch_history =
        [{ symbol := "A", articles_count := 0, success := true,
            error_message := none, created_at := 7 },
         { symbol := "B", articles_count := 1, success := true,
            error_message := none, created_at := 7 }] ∧
      ¬ ∃ r ∈ (fetch_and_cache_gold_news failing_news_source some ["A", "B"] 50 7
          []).news_fetch_history, r.symbol = "A" ∧ r.success = false := by
  refine ⟨rfl, rfl, rfl, ?_⟩
  decide

/-- C6, amended: if during fetch_and_cache_gold_news the upstream fetch for
one symbol fails (the news path performs no retries) while another symbol
succeeds, the successful symbol's articles are present in the store (each
has a matching row), the failing symbol contributes zero new records, and
the cycle completes normally; the failing symbol's fetch-history row records
success=TRUE with articles_count=0 and NO error message, because the
exception is swallowed inside fetch_news_for_symbol; a succeeded=false row
is not written for upstream failures. -/
theorem C6_partial_failure_isolation {α : Type}
    (news_source : String → Except String (List α))
    (process : α → Option NewsArticle) (A B msg : String) (raw : List α)
    (max_articles : Nat) (now : Int) (T : List NewsRow)
    (hA : news_source A = .error msg) (hB : news_source B = .ok raw) :
    fetch_and_cache_gold_news news_source process [A, B] max_articles now T =
        { gold_news := (save_news_to_database
            (fetch_news_for_symbol news_source process B max_articles) now T).1,
          news_fetch_history :=
            [{ symbol := A, articles_count := 0, success := true,
                error_message := none, created_at := now },
             { symbol := B,
                articles_count :=
                  (fetch_news_for_symbol news_source process B max_articles).length,
                success := true, error_message := none, created_at := now }],
          results := [(A, 0),
            (B, (save_news_to_database
              (fetch_news_for_symbol news_source process B max_articles) now T).2)] } ∧
      ∀ a ∈ fetch_news_for_symbol news_source process B max_articles,
        news_conflictP a
          (fetch_and_cache_gold_news news_source process [A, B] max_articles now
            T).gold_news := by
  have hfA : fetch_news_for_symbol news_source process A max_articles = [] := by
    unfold fetch_news_for_symbol
    rw [hA]
  constructor
  · unfold fetch_and_cache_gold_news
    simp only [news_cycle_go, hfA]
    rw [show save_news_to_database [] now T = (T, 0) from rfl]
    simp
  · intro a ha
    exact news_cycle_go_all_conflict news_source process max_articles now [A, B]
      { gold_news := T, news_fetch_history := [], results := [] } B
      (by simp) a ha

/-- C6, witness: the amended theorem applied to the failing source with
symbols A and B. -/
theorem C6_witness :
    fetch_and_cache_gold_news failing_news_source some ["A", "B"] 50 7 [] =
        { gold_news := (save_news_to_database
            (fetch_news_for_symbol failing_news_source some "B" 50) 7 []).1,
          news_fetch_history :=
            [{ symbol := "A", articles_count := 0, success := true,
                error_message := none, created_at := 7 },
             { symbol := "B",
                articles_count :=
                  (fetch_news_for_symbol failing_news_source some "B" 50).length,
                success := true, error_message := none, created_at := 7 }],
          results := [("A", 0),
            ("B", (save_news_to_database
              (fetch_news_for_symbol failing_news_source some "B" 50) 7 []).2)] } ∧
      ∀ a ∈ fetch_news_for_symbol failing_news_source some "B" 50,
        news_conflictP a
          (fetch_and_cache_gold_news failing_news_source some ["A", "B"] 50 7
            []).gold_news :=
  C6_partial_failure_isolation failing_news_source some "A" "B" "boom"
    [sample_article "t" "s" "l" "B"] 50 7 [] rfl rfl

theorem length_filterMap_lt_of_none {α β : Type} {f : α → Option β}
    {l : List α} {a : α} (ha : a ∈ l) (hf : f a = none) :
    (l.filterMap f).length < l.length := by
  induction l with
  | nil => simp at ha
  | cons b t ih =>
    rcases List.mem_cons.1 ha with rfl | ha'
    · rw [List.filterMap_cons, hf]
      exact Nat.lt_succ_of_le (List.length_filterMap_le _ _)
    · cases hfb : f b with
      | none =>
        rw [List.filterMap_cons, hfb]
        exact Nat.lt_succ_of_lt (ih ha')
      | some y =>
        rw [List.filterMap_cons, hfb]
        simpa using Nat.succ_lt_succ (ih ha')

/-- C8: a processing failure on one article of a fetched batch does not
abort the batch: fetch_news_for_symbol returns exactly the successfully
processed articles of the batch (every article whose processing succeeds is
included) and the failing article is excluded (the result is strictly
shorter than the batch). -/
theorem C8_article_failure_isolated {α : Type}
    (news_source : String → Except String (List α))
    (process : α → Option NewsArticle) (symbol : String) (raw : List α)
    (max_articles : Nat) (a : α)
    (hok : news_source symbol = .ok raw) (hlen : raw.length ≤ max_articles)
    (ha : a ∈ raw) (hfail : process a = none) :
    fetch_news_for_symbol news_source process symbol max_articles =
        raw.filterMap process ∧
      (∀ x ∈ raw, ∀ y, process x = some y → y ∈ raw.filterMap process) ∧
      (raw.filterMap process).length < raw.length := by
  have heq : fetch_news_for_symbol news_source process symbol max_articles =
      raw.filterMap process := by
    unfold fetch_news_for_symbol
    rw [hok]
    show (if raw.isEmpty = true then []
      else List.filterMap process (List.take max_articles raw)) = _
    rw [if_neg (by rw [List.isEmpty_iff]; rintro rfl; simp at ha)]
    rw [List.take_of_length_le hlen]
  exact ⟨heq, fun x hx y hy => List.mem_filterMap.2 ⟨x, hx, hy⟩,
    length_filterMap_lt_of_none ha hfail⟩

/-- C8, witness: a batch of two raw articles where the first fails to
process; the second is still processed and included. -/
theorem C8_witness :
    fetch_news_for_symbol (fun _ => .ok [0, 1]) sample_process "B" 50 =
        ([0, 1] : List Nat).filterMap sample_process ∧
      (∀ x ∈ ([0, 1] : List Nat), ∀ y, sample_process x = some y →
        y ∈ ([0, 1] : List Nat).filterMap sample_process) ∧
      (([0, 1] : List Nat).filterMap sample_process).length < ([0, 1] : List Nat).length :=
  C8_article_failure_isolated (fun _ => .ok [0, 1]) sample_process "B" [0, 1] 50 0
    rfl (by decide) (by decide) (by decide)

/-- C10: the gold_news table also enforces uniqueness on the link column:
two candidates sharing a link but differing in title or summary (hence with
different content hashes) yield exactly one row for that link; the second
INSERT OR IGNORE is silently dropped and not counted in the returned number
of saved articles. -/
theorem C10_link_unique_constraint (a1 a2 : NewsArticle) (t : Int)
    (T : List NewsRow)
    (hl : a1.link = a2.link)
    (hdiff : a1.title ≠ a2.title ∨ a1.summary ≠ a2.summary)
    (hhash : a1.content_hash ≠ a2.content_hash)
    (hT : ∀ r ∈ T, r.link ≠ a1.link ∧ r.content_hash ≠ a1.content_hash) :
    save_news_to_database [a1, a2] t T = (T ++ [news_row_of a1 t], 1) ∧
      (T ++ [news_row_of a1 t]).filter (fun r => r.link == a1.link) =
        [news_row_of a1 t] := by
  have hc1 : news_conflict T a1 = false := news_conflict_eq_false.2 hT
  constructor
  · unfold save_news_to_database
    rw [if_neg (by simp)]
    simp only [save_news_go]
    rw [if_neg (by simp [hc1])]
    have hc2 : news_conflict (T ++ [news_row_of a1 t]) a2 = true := by
      unfold news_conflict
      rw [List.any_append]
      simp [news_row_of, hl]
    rw [if_pos hc2]
  · rw [List.filter_append,
      List.filter_eq_nil_iff.2 (by intro r hr; simpa using (hT r hr).1)]
    simp [news_row_of]

/-- C10, witness: two articles with the same link and different titles and
summaries over the empty table. -/
theorem C10_witness :
    save_news_to_database
        [sample_article "t1" "s1" "l" "A", sample_article "t2" "s2" "l" "A"] 3 [] =
        ([] ++ [news_row_of (sample_article "t1" "s1" "l" "A") 3], 1) ∧
      (([] : List NewsRow) ++ [news_row_of (sample_article "t1" "s1" "l" "A") 3]).filter
          (fun r => r.link == (sample_article "t1" "s1" "l" "A").link) =
        [news_row_of (sample_article "t1" "s1" "l" "A") 3] :=
  C10_link_unique_constraint (sample_article "t1" "s1" "l" "A")
    (sample_article "t2" "s2" "l" "A") 3 [] rfl (by decide) (by decide)
    (by intro r hr; simp at hr)

end GoldDigger

